import Mathlib

/-!
Verification of the agent-orchestration coordination layer
(`agents/communication.py`, `agents/base_agent.py`, `agents/orchestrator.py`
and the specialized review agents).

The Python code is shallowly embedded:

* Decoded JSON data (`Dict[str, Any]` payloads, vote values) is the
  inductive `JsonValue`.  `json.dumps` / `json.loads` of the Python `json`
  library are lossless inverses on JSON-representable data, so
  serialization is modelled at the level of the decoded tree.
* Python `dict`s are insertion-ordered association lists; `d[k] = v`
  replaces in place when the key is present and appends otherwise
  (`dset`), `d.get(k)` is `dget`.
* `print` calls that report warnings or recorded events are modelled as an
  append-only `log` in the orchestrator state.
* `str(uuid.uuid4())` is modelled as drawing the next element of an
  ambient id stream `uuids : Nat → String` held in the orchestrator state;
  freshness of UUIDs is the assumption that this stream is injective.
* A Python exception is the `.error` branch of an `Except` value.
-/

namespace Orchestration

/-- Decoded JSON values, as produced by `json.loads`: Python `str`, `int`,
`bool`, `None`, `list`, `dict`.  (JSON floats do not occur in the
coordination layer and are not modelled.)  A missing-key `get` returning
Python `None` and a decoded JSON `null` coincide, as they do in Python. -/
inductive JsonValue where
  | str (s : String)
  | num (n : Int)
  | bool (b : Bool)
  | null
  | arr (xs : List JsonValue)
  | obj (fields : List (String × JsonValue))

mutual

/-- Boolean equality on decoded JSON values. -/
def beqJson : JsonValue → JsonValue → Bool
  | .str s, .str t => s == t
  | .num m, .num n => m == n
  | .bool a, .bool b => a == b
  | .null, .null => true
  | .arr xs, .arr ys => beqJsonList xs ys
  | .obj fs, .obj gs => beqJsonObj fs gs
  | _, _ => false

/-- Boolean equality on lists of JSON values. -/
def beqJsonList : List JsonValue → List JsonValue → Bool
  | [], [] => true
  | x :: xs, y :: ys => beqJson x y && beqJsonList xs ys
  | _, _ => false

/-- Boolean equality on JSON object field lists. -/
def beqJsonObj : List (String × JsonValue) → List (String × JsonValue) → Bool
  | [], [] => true
  | (k, v) :: fs, (l, w) :: gs => k == l && beqJson v w && beqJsonObj fs gs
  | _, _ => false

end

mutual

/-- `beqJson` is reflexive. -/
def beqJson_refl : (a : JsonValue) → beqJson a a = true
  | .str _ => by simp [beqJson]
  | .num _ => by simp [beqJson]
  | .bool _ => by simp [beqJson]
  | .null => rfl
  | .arr xs => beqJsonList_refl xs
  | .obj fs => beqJsonObj_refl fs

/-- `beqJsonList` is reflexive. -/
def beqJsonList_refl : (xs : List JsonValue) → beqJsonList xs xs = true
  | [] => rfl
  | x :: xs => by
      simp only [beqJsonList, Bool.and_eq_true]
      exact ⟨beqJson_refl x, beqJsonList_refl xs⟩

/-- `beqJsonObj` is reflexive. -/
def beqJsonObj_refl : (fs : List (String × JsonValue)) → beqJsonObj fs fs = true
  | [] => rfl
  | (k, v) :: fs => by
      simp only [beqJsonObj, Bool.and_eq_true, beq_self_eq_true, true_and]
      exact ⟨beqJson_refl v, beqJsonObj_refl fs⟩

end

mutual

/-- `beqJson` is sound for equality. -/
def eq_of_beqJson : (a b : JsonValue) → beqJson a b = true → a = b
  | .str _, b, h => by cases b <;> simp_all [beqJson]
  | .num _, b, h => by cases b <;> simp_all [beqJson]
  | .bool _, b, h => by cases b <;> simp_all [beqJson]
  | .null, b, h => by cases b <;> simp_all [beqJson]
  | .arr xs, b, h => by
      cases b <;> simp_all [beqJson]
      exact eq_of_beqJsonList xs _ h
  | .obj fs, b, h => by
      cases b <;> simp_all [beqJson]
      exact eq_of_beqJsonObj fs _ h

/-- `beqJsonList` is sound for equality. -/
def eq_of_beqJsonList : (xs ys : List JsonValue) → beqJsonList xs ys = true → xs = ys
  | [], [], _ => rfl
  | [], _ :: _, h => by simp [beqJsonList] at h
  | _ :: _, [], h => by simp [beqJsonList] at h
  | x :: xs, y :: ys, h => by
      simp only [beqJsonList, Bool.and_eq_true] at h
      rw [eq_of_beqJson x y h.1, eq_of_beqJsonList xs ys h.2]

/-- `beqJsonObj` is sound for equality. -/
def eq_of_beqJsonObj :
    (fs gs : List (String × JsonValue)) → beqJsonObj fs gs = true → fs = gs
  | [], [], _ => rfl
  | [], _ :: _, h => by simp [beqJsonObj] at h
  | _ :: _, [], h => by simp [beqJsonObj] at h
  | (k, v) :: fs, (l, w) :: gs, h => by
      simp only [beqJsonObj, Bool.and_eq_true, beq_iff_eq] at h
      rw [h.1.1, eq_of_beqJson v w h.1.2, eq_of_beqJsonObj fs gs h.2]

end

instance : DecidableEq JsonValue := fun a b =>
  if h : beqJson a b = true then isTrue (eq_of_beqJson a b h)
  else isFalse (fun hh => h (by rw [hh]; exact beqJson_refl b))

/-- A Python `dict` with string keys holding JSON values. -/
abbrev PyDict := List (String × JsonValue)

/-- `d.get(k)` / `d[k]` lookup on an insertion-ordered dict. -/
def dget {K V : Type} [DecidableEq K] (d : List (K × V)) (k : K) : Option V :=
  match d with
  | [] => none
  | (k', v) :: rest => if k' = k then some v else dget rest k

/-- `k in d` membership test on a dict. -/
def dmem {K V : Type} [DecidableEq K] (d : List (K × V)) (k : K) : Bool :=
  (dget d k).isSome

/-- `d[k] = v` on a Python dict: replace in place when `k` is present,
append otherwise (insertion order is preserved). -/
def dset {K V : Type} [DecidableEq K] (d : List (K × V)) (k : K) (v : V) :
    List (K × V) :=
  match d with
  | [] => [(k, v)]
  | (k', v') :: rest => if k' = k then (k, v) :: rest else (k', v') :: dset rest k v

mutual

/-- Python `repr` of a decoded JSON value (string escaping inside `repr` of
a string is abstracted away; no claim depends on it). -/
def pyRepr : JsonValue → String
  | .str s => "'" ++ s ++ "'"
  | .num n => toString n
  | .bool true => "True"
  | .bool false => "False"
  | .null => "None"
  | .arr xs => "[" ++ pyReprList xs ++ "]"
  | .obj fs => "\x7b" ++ pyReprObj fs ++ "\x7d"

/-- `repr` of the comma-separated items of a Python list. -/
def pyReprList : List JsonValue → String
  | [] => ""
  | [x] => pyRepr x
  | x :: y :: xs => pyRepr x ++ ", " ++ pyReprList (y :: xs)

/-- `repr` of the comma-separated items of a Python dict. -/
def pyReprObj : List (String × JsonValue) → String
  | [] => ""
  | [(k, v)] => "'" ++ k ++ "': " ++ pyRepr v
  | (k, v) :: f :: fs => "'" ++ k ++ "': " ++ pyRepr v ++ ", " ++ pyReprObj (f :: fs)

end

/-- Python `str()` of a decoded JSON value, as applied by
`coordinate_consensus` (`vote_str = str(vote)`) to make votes comparable. -/
def pyStr : JsonValue → String
  | .str s => s
  | .num n => toString n
  | .bool true => "True"
  | .bool false => "False"
  | .null => "None"
  | .arr xs => "[" ++ pyReprList xs ++ "]"
  | .obj fs => "\x7b" ++ pyReprObj fs ++ "\x7d"

/-- One field declaration of a Python dataclass: its name and whether the
declaration carries a default value. -/
structure DataclassField where
  name : String
  hasDefault : Bool
deriving DecidableEq

/-- The field declarations of the `AgentMessage` dataclass
(`agents/communication.py` lines 23-27), in source order: `sender_id`
(no default), `receiver_id = None`, `message_type` (no default),
`payload` (no default), `task_id = None`. -/
def agentMessageFields : List DataclassField :=
  [⟨"sender_id", false⟩, ⟨"receiver_id", true⟩, ⟨"message_type", false⟩,
   ⟨"payload", false⟩, ⟨"task_id", true⟩]

/-- CPython's `@dataclass` class-creation check on the generated
`__init__`: creation succeeds iff no field without a default follows a
field with one (otherwise `TypeError: non-default argument ... follows
default argument`).  The fold carries (valid so far, a default has been
seen). -/
def dataclassValid (fields : List DataclassField) : Bool :=
  (fields.foldl
    (fun (acc : Bool × Bool) f =>
      (acc.1 && (f.hasDefault || !acc.2), acc.2 || f.hasDefault))
    (true, false)).1

/-- `AgentMessage` (`agents/communication.py`): the standard message
envelope, as a record with the five declared fields.  NOTE: this record
deliberately repairs a defect of the source: the dataclass as written
places the defaulted `receiver_id` before the non-defaulted
`message_type`/`payload`, which CPython rejects at class-creation time —
that defect is embedded separately as `agentMessageFields` /
`dataclassValid` and settled under the serialization claim.  Every
construction site in the repository passes keyword arguments consistent
with this record, so the repaired record is what the rest of the code is
written against. -/
structure AgentMessage where
  sender_id : String
  receiver_id : Option String
  message_type : String
  payload : PyDict
  task_id : Option String
deriving DecidableEq

/-- `None` ↦ JSON `null`, `str` ↦ JSON string, as `json.dumps` renders the
optional envelope fields. -/
def optStrToJson : Option String → JsonValue
  | none => .null
  | some s => .str s

/-- Reading back an optional string field (`null` ↦ `None`). -/
def jsonToOptStr : JsonValue → Option (Option String)
  | .null => some none
  | .str s => some (some s)
  | _ => none

/-- `AgentMessage.to_json`: `json.dumps(asdict(self))`, modelled as the
decoded JSON object it writes (`asdict` lists the five fields in
declaration order). -/
def AgentMessage.to_json (m : AgentMessage) : PyDict :=
  [("sender_id", .str m.sender_id),
   ("receiver_id", optStrToJson m.receiver_id),
   ("message_type", .str m.message_type),
   ("payload", .obj m.payload),
   ("task_id", optStrToJson m.task_id)]

/-- `AgentMessage.from_json`: `cls(**json.loads(json_str))`, modelled on
the decoded JSON object; `none` marks inputs that do not yield a
well-typed envelope. -/
def AgentMessage.from_json (d : PyDict) : Option AgentMessage :=
  match dget d "sender_id", dget d "receiver_id", dget d "message_type",
        dget d "payload", dget d "task_id" with
  | some (.str s), some rv, some (.str mt), some (.obj p), some tv =>
    match jsonToOptStr rv, jsonToOptStr tv with
    | some r, some t => some ⟨s, r, mt, p, t⟩
    | _, _ => none
  | _, _, _, _, _ => none

/-- Exchange name constants from `agents/communication.py`. -/
def TASK_EXCHANGE : String := "task_exchange"

/-- Result exchange name. -/
def RESULT_EXCHANGE : String := "result_exchange"

/-- Vote exchange name. -/
def VOTE_EXCHANGE : String := "vote_exchange"

/-- Broadcast exchange name. -/
def BROADCAST_EXCHANGE : String := "broadcast_exchange"

/-- One entry of `Orchestrator.tasks`:
`{"agent_id": ..., "status": ..., "results": ...}`. -/
structure TaskRecord where
  agent_id : String
  status : String
  results : Option PyDict
deriving DecidableEq

/-- One entry of `Orchestrator.active_votes[topic][task_id]`:
`{"voted_agents": [...], "votes": [...]}`.  `votes` holds the raw
`payload.get("vote")` values in arrival order. -/
structure Tally where
  voted_agents : List String
  votes : List JsonValue
deriving DecidableEq

/-- Key of a tally.  Python keeps a two-level dict
`active_votes[vote_topic][task_id]`; the model flattens it to one map
keyed by the pair — every access in the source goes through both levels.
The first component is the raw `payload.get("vote_topic")` value (Python
additionally requires it to be hashable to serve as a dict key; every
topic in the system is a string). -/
abbrev VoteKey := JsonValue × Option String

/-- A message published through `send_message(channel, message, exchange,
routing_key)`. -/
structure SentMessage where
  exchange : String
  routing_key : String
  message : AgentMessage
deriving DecidableEq

/-- The orchestrator's mutable state.  `uuids`/`uuidCount` model the
stream of `str(uuid.uuid4())` draws; `sent` collects published messages;
`log` collects the warning/record `print` lines. -/
structure OState where
  orchestrator_id : String
  tasks : List (String × TaskRecord)
  active_votes : List (VoteKey × Tally)
  uuids : Nat → String
  uuidCount : Nat
  sent : List SentMessage
  log : List String

/-- A freshly constructed orchestrator: empty registry, empty tallies. -/
def initOState (oid : String) (uuids : Nat → String) : OState :=
  ⟨oid, [], [], uuids, 0, [], []⟩

/-- The `AgentMessage` constructed by `Orchestrator.assign_task`
(lines 53-58): the generated id travels in the payload, and the
constructor call passes no `task_id`, so the envelope field is `None`. -/
def taskMessage (orchestrator_id agent_id task_id task_type : String)
    (task_payload : PyDict) : AgentMessage :=
  { sender_id := orchestrator_id
    receiver_id := some agent_id
    message_type := "TASK"
    payload := [("task_id", .str task_id), ("type", .str task_type),
                ("details", .obj task_payload)]
    task_id := none }

/-- `Orchestrator.assign_task`: draw a fresh task id, publish the TASK
envelope routed to the agent, record
`{"agent_id": agent_id, "status": "assigned", "results": None}`, return
the id. -/
def assign_task (st : OState) (agent_id : String) (task_payload : PyDict)
    (task_type : String) : String × OState :=
  let task_id := st.uuids st.uuidCount
  (task_id,
   { st with
     uuidCount := st.uuidCount + 1
     sent := st.sent ++ [⟨TASK_EXCHANGE, agent_id,
       taskMessage st.orchestrator_id agent_id task_id task_type task_payload⟩]
     tasks := dset st.tasks task_id ⟨agent_id, "assigned", none⟩ })

/-- `Orchestrator.collect_results` callback: if the envelope `task_id` is
a known key of `tasks`, mark the record completed and store the payload;
otherwise print a warning and drop the message.  The transport ack always
happens; the callback raises on no decoded message. -/
def collect_results (st : OState) (m : AgentMessage) : OState :=
  match m.task_id with
  | some tid =>
      match dget st.tasks tid with
      | some r =>
          { st with
            tasks := dset st.tasks tid
              { r with status := "completed", results := some m.payload }
            log := st.log ++ ["Results for task " ++ tid ++ " collected."] }
      | none =>
          { st with
            log := st.log ++ ["Warning: Received result for unknown task " ++ tid] }
  | none =>
      { st with
        log := st.log ++ ["Warning: Received result for unknown task None"] }

/-- The `active_votes` update of `Orchestrator._process_vote_message`:
ensure the nested tally entry exists for
`(payload.get("vote_topic"), message.task_id)`, then record the vote
unless the sender already voted for that key (first-vote-wins). -/
def voteUpdate (avs : List (VoteKey × Tally)) (m : AgentMessage) :
    List (VoteKey × Tally) :=
  let vote_topic := (dget m.payload "vote_topic").getD .null
  let vote := (dget m.payload "vote").getD .null
  let key : VoteKey := (vote_topic, m.task_id)
  let av := if dmem avs key then avs else avs ++ [(key, ⟨[], []⟩)]
  let tally := (dget av key).getD ⟨[], []⟩
  if m.sender_id ∈ tally.voted_agents then av
  else
    dset av key ⟨tally.voted_agents ++ [m.sender_id], tally.votes ++ [vote]⟩

/-- The line `_process_vote_message` prints: a duplicate-vote warning or
a recorded-vote notice. -/
def voteLogLine (avs : List (VoteKey × Tally)) (m : AgentMessage) : String :=
  let vote_topic := (dget m.payload "vote_topic").getD .null
  let key : VoteKey := (vote_topic, m.task_id)
  let av := if dmem avs key then avs else avs ++ [(key, ⟨[], []⟩)]
  let tally := (dget av key).getD ⟨[], []⟩
  if m.sender_id ∈ tally.voted_agents then
    "Warning: Agent " ++ m.sender_id ++ " already voted."
  else
    "Recorded vote from " ++ m.sender_id ++ "."

/-- `Orchestrator._process_vote_message` callback: apply the tally update
and print the matching line; nothing else in the state is touched. -/
def process_vote_message (st : OState) (m : AgentMessage) : OState :=
  { st with
    active_votes := voteUpdate st.active_votes m
    log := st.log ++ [voteLogLine st.active_votes m] }

/-- The `consensus` field of a consensus result: a single winning option
or the list of tied options. -/
inductive ConsensusVal where
  | single (s : String)
  | multi (ws : List String)
deriving DecidableEq

/-- The dict returned by `coordinate_consensus`.  The early `no_votes`
returns contain only `status` and `message`; absent keys are modelled as
`none`.  (`consensus` is initialised to `None` on the main path but
always overwritten before returning.) -/
structure ConsensusResult where
  status : String
  message : String
  vote_topic : Option String
  task_id : Option String
  total_votes : Option Nat
  vote_counts : Option (List (String × Nat))
  consensus : Option ConsensusVal
deriving DecidableEq

/-- The tally loop of `coordinate_consensus`:
`vote_counts[str(vote)] = vote_counts.get(str(vote), 0) + 1` over the
recorded votes, starting from the dict built so far. -/
def countsFold (d : List (String × Nat)) : List JsonValue → List (String × Nat)
  | [] => d
  | vote :: rest =>
      countsFold (dset d (pyStr vote) ((dget d (pyStr vote)).getD 0 + 1)) rest

/-- The `vote_counts` dict of `coordinate_consensus` (initially empty). -/
def buildCounts (votes : List JsonValue) : List (String × Nat) :=
  countsFold [] votes

/-- The running maximum of the counts seen by the winner scan (the value
`max_votes` holds after the loop). -/
def listMax (m : Nat) : List (String × Nat) → Nat
  | [] => m
  | p :: rest => listMax (max m p.2) rest

/-- The winner scan of `coordinate_consensus` over `vote_counts.items()`,
carrying `(max_votes, winning_votes)`: `count > max_votes` resets the
winners, `count == max_votes` appends. -/
def maxScan (acc : Nat × List String) : List (String × Nat) → Nat × List String
  | [] => acc
  | p :: rest =>
      if p.2 > acc.1 then maxScan (p.2, [p.1]) rest
      else if p.2 = acc.1 then maxScan (acc.1, acc.2 ++ [p.1]) rest
      else maxScan acc rest

/-- A `no_votes` result (only `status` and `message` present). -/
def noVotesResult (msg : String) : ConsensusResult :=
  ⟨"no_votes", msg, none, none, none, none, none⟩

/-- `Orchestrator.coordinate_consensus`: look up the tally for
`(vote_topic, task_id)`; with no recorded votes return `no_votes`;
otherwise count votes by their `str()` image, scan for the maximal
option(s), and report `success` for a unique winner or `tie` for several. -/
def coordinate_consensus (st : OState) (vote_topic : String) (task_id : String) :
    ConsensusResult :=
  match dget st.active_votes (.str vote_topic, some task_id) with
  | none =>
      noVotesResult ("No votes found for topic '" ++ vote_topic ++
        "' and task '" ++ task_id ++ "'.")
  | some tally =>
      let votes_data := tally.votes
      if votes_data.isEmpty then
        noVotesResult ("No votes recorded for topic '" ++ vote_topic ++
          "' and task '" ++ task_id ++ "'.")
      else
        let vote_counts := buildCounts votes_data
        if vote_counts.isEmpty then
          noVotesResult "No valid votes to aggregate."
        else
          let mw := maxScan (0, []) vote_counts
          match mw.2 with
          | [w] =>
              ⟨"success",
               "Consensus reached: Majority voted for '" ++ w ++ "'.",
               some vote_topic, some task_id, some votes_data.length,
               some vote_counts, some (.single w)⟩
          | ws =>
              ⟨"tie",
               "No clear majority. Multiple top votes: " ++
                 String.intercalate ", " ws ++ ".",
               some vote_topic, some task_id, some votes_data.length,
               some vote_counts, some (.multi ws)⟩

/-- `BaseAgent.send_results`: publish a RESULT envelope (non-null
`task_id`) routed to the orchestrator id. -/
def send_results (agent_id orchestrator_id : String) (task_id : String)
    (payload : PyDict) : SentMessage :=
  ⟨RESULT_EXCHANGE, orchestrator_id,
   { sender_id := agent_id, receiver_id := some orchestrator_id,
     message_type := "RESULT", payload := payload, task_id := some task_id }⟩

/-- `BaseAgent.send_vote`: publish a VOTE envelope (non-null `task_id`)
with routing key `vote.<topic>`. -/
def send_vote (agent_id : String) (task_id : String) (vote : JsonValue)
    (vote_topic : String) : SentMessage :=
  ⟨VOTE_EXCHANGE, "vote." ++ vote_topic,
   { sender_id := agent_id, receiver_id := none, message_type := "VOTE",
     payload := [("vote_topic", .str vote_topic), ("vote", vote)],
     task_id := some task_id }⟩

/-- Python exceptions that can cross the agent boundary. -/
inductive PyException where
  | attributeError (msg : String)
  | keyError (key : String)
  | typeError (msg : String)
deriving DecidableEq

/-- Python truthiness test (`if not code_diff`). -/
def pyFalsy : JsonValue → Bool
  | .str s => s = ""
  | .num n => n = 0
  | .bool b => !b
  | .null => true
  | .arr xs => xs.isEmpty
  | .obj fs => fs.isEmpty

/-- `QualityAgent.handle_task`.  The outcome of
`self._generate_llm_response(...)` — the external generative-model
collaborator — is the parameter `llm`; the handler's own `try/except`
wraps exactly that call.  `details.get(...)` raises `AttributeError` when
`details` is `None` (or any non-dict), and nothing above the handler
catches it. -/
def quality_handle_task (llm : Except String String)
    (task_type : Option JsonValue) (details : Option JsonValue) :
    Except PyException PyDict :=
  if task_type = some (.str "review_code") then
    match details with
    | some (.obj d) =>
        let code_diff := (dget d "code_diff").getD (.str "")
        if pyFalsy code_diff then
          .ok [("status", .str "error"),
               ("message", .str "No code diff provided for quality review.")]
        else
          match llm with
          | .ok r => .ok [("status", .str "success"), ("review", .str r)]
          | .error e =>
              .ok [("status", .str "error"),
                   ("message", .str ("Error during Gemini quality review: " ++ e))]
    | _ => .error (.attributeError "this object has no attribute get")
  else
    .ok [("status", .str "error"),
         ("message", .str "Unknown task type for QualityAgent.")]

/-- `BaseAgent._process_task_message`: ack the delivery, run
`handle_task(payload.get('type'), payload.get('details'))`, then publish
`send_results(payload["task_id"], results)`.  The body has no
`try/except`, so a handler exception propagates to the pika consume loop
(`.error`).  (`payload["task_id"]` raises `KeyError` when absent; a
non-string value there falls outside the `Optional[str]` envelope
contract and no code path produces one.) -/
def process_task_message (agent_id orchestrator_id : String)
    (handler : Option JsonValue → Option JsonValue → Except PyException PyDict)
    (m : AgentMessage) : Except PyException SentMessage :=
  match handler (dget m.payload "type") (dget m.payload "details") with
  | .error e => .error e
  | .ok results =>
      match dget m.payload "task_id" with
      | some (.str tid) => .ok (send_results agent_id orchestrator_id tid results)
      | some _ => .error (.typeError "non-string task_id in payload")
      | none => .error (.keyError "task_id")

/-- An operation applied to the orchestrator state: a local
`assign_task` call or the arrival of a RESULT or VOTE message. -/
inductive Op where
  | assign (agent_id : String) (task_payload : PyDict) (task_type : String)
  | result (m : AgentMessage)
  | vote (m : AgentMessage)

/-- Apply one operation. -/
def applyOp (st : OState) : Op → OState
  | .assign a p ty => (assign_task st a p ty).2
  | .result m => collect_results st m
  | .vote m => process_vote_message st m

/-- Run a sequence of operations. -/
def runOps (st : OState) (ops : List Op) : OState := ops.foldl applyOp st

/-- The tally key a VOTE message is filed under:
`(payload.get("vote_topic"), message.task_id)`. -/
def voteKeyOf (m : AgentMessage) : VoteKey :=
  ((dget m.payload "vote_topic").getD .null, m.task_id)

/-- The raw vote value a VOTE message carries: `payload.get("vote")`. -/
def voteOf (m : AgentMessage) : JsonValue :=
  (dget m.payload "vote").getD .null

/-- The tally currently recorded for a key (an absent key reads as the
empty tally, exactly what `_process_vote_message` initialises). -/
def tallyAt (st : OState) (key : VoteKey) : Tally :=
  (dget st.active_votes key).getD ⟨[], []⟩

/-- The votes recorded for `(vote_topic, task_id)` as read by
`coordinate_consensus`. -/
def votesAt (st : OState) (vote_topic task_id : String) : List JsonValue :=
  (tallyAt st (.str vote_topic, some task_id)).votes

/-- `w` is an option (a `str()` image of a vote) holding the strict
maximum count among the tallied strings `ss`. -/
def strictlyMaximalVote (ss : List String) (w : String) : Prop :=
  w ∈ ss ∧ ∀ t ∈ ss, t ≠ w → ss.count t < ss.count w

/-- `w` is an option holding the (not necessarily unique) maximum count
among the tallied strings `ss`. -/
def maximalVote (ss : List String) (w : String) : Prop :=
  w ∈ ss ∧ ∀ t ∈ ss, ss.count t ≤ ss.count w

/-- Lookup in the `vote_counts` entry of a consensus result (a missing
entry, as in the `no_votes` results, reads as the empty dict). -/
def countsOf (r : ConsensusResult) (s : String) : Option Nat :=
  dget (r.vote_counts.getD []) s

/-- The set of values named by the `consensus` entry, as a list: a single
winner, the tied options, or nothing. -/
def consensusElems : Option ConsensusVal → List String
  | none => []
  | some (.single w) => [w]
  | some (.multi ws) => ws

/-- Every task record status is `"assigned"` or `"completed"`. -/
def statusOK (st : OState) : Prop :=
  ∀ tid r, dget st.tasks tid = some r →
    r.status = "assigned" ∨ r.status = "completed"

/-- A concrete injective uuid stream, used to instantiate theorems with
freshness hypotheses (the n-th draw is the string of n+1 `u`s). -/
def exUuids : Nat → String := fun n => String.mk (List.replicate (n + 1) 'u')

/-- A freshly constructed concrete orchestrator. -/
def exBase : OState := initOState "orchestrator_1" exUuids

/-- A concrete orchestrator holding the spec's scenario-A tally:
votes Approve, Approve, Reject on `("approve_code_fix", "t1")`. -/
def exVotedSt : OState :=
  { exBase with
    active_votes := [((.str "approve_code_fix", some "t1"),
      ⟨["a1", "a2", "a3"], [.str "Approve", .str "Approve", .str "Reject"]⟩)] }

/-- A concrete VOTE message whose task id `t99` was never issued. -/
def exVoteMsg : AgentMessage :=
  { sender_id := "a9", receiver_id := none, message_type := "VOTE",
    payload := [("vote_topic", .str "approve_code_fix"), ("vote", .str "Approve")],
    task_id := some "t99" }

/-- A concrete duplicate VOTE: sender `a1` already voted on
`("approve_code_fix", "t1")` in `exVotedSt`. -/
def exDupVoteMsg : AgentMessage :=
  { sender_id := "a1", receiver_id := none, message_type := "VOTE",
    payload := [("vote_topic", .str "approve_code_fix"), ("vote", .str "Reject")],
    task_id := some "t1" }

/-- A concrete RESULT message for the unissued task id `t99`. -/
def exResultMsg : AgentMessage :=
  { sender_id := "a1", receiver_id := some "orchestrator_1",
    message_type := "RESULT",
    payload := [("status", .str "success")], task_id := some "t99" }

/-- A concrete TASK message whose payload has `type="review_code"` but no
`details` key, so `payload.get('details')` is `None`. -/
def exTaskNoDetails : AgentMessage :=
  { sender_id := "orchestrator_1", receiver_id := some "qa1",
    message_type := "TASK",
    payload := [("task_id", .str "t1"), ("type", .str "review_code")],
    task_id := none }

/-- The concrete orchestrator after one `assign_task("agent_a", {},
"review_code")`; the generated id is `exUuids 0 = "u"`. -/
def exAssigned : OState := (assign_task exBase "agent_a" [] "review_code").2

/-- A concrete RESULT for task `"u"` whose payload itself reports
`status="error"`. -/
def exResultU : AgentMessage :=
  { sender_id := "agent_a", receiver_id := some "orchestrator_1",
    message_type := "RESULT",
    payload := [("status", .str "error"), ("message", .str "boom")],
    task_id := some "u" }

/-- A concrete VOTE by `a1` for `("approve_code_fix", "t1")`. -/
def exV1 : AgentMessage :=
  { sender_id := "a1", receiver_id := none, message_type := "VOTE",
    payload := [("vote_topic", .str "approve_code_fix"), ("vote", .str "Approve")],
    task_id := some "t1" }

/-- A concrete VOTE by `a2` for `("approve_code_fix", "t1")`. -/
def exV2 : AgentMessage :=
  { sender_id := "a2", receiver_id := none, message_type := "VOTE",
    payload := [("vote_topic", .str "approve_code_fix"), ("vote", .str "Reject")],
    task_id := some "t1" }

/-- A sequence of `assign_task` calls, returning the task ids in call
order together with the final state. -/
def assignMany (st : OState) : List (String × PyDict × String) → List String × OState
  | [] => ([], st)
  | (a, p, ty) :: rest =>
      let r := assign_task st a p ty
      let rest' := assignMany r.2 rest
      (r.1 :: rest'.1, rest'.2)

end Orchestration

namespace Orchestration

section DictLemmas

variable {K V : Type} [DecidableEq K]

/-- Lookup after an update at the same key. -/
theorem dget_dset_self (d : List (K × V)) (k : K) (v : V) :
    dget (dset d k v) k = some v := by
  induction d with
  | nil => simp [dset, dget]
  | cons p rest ih =>
      by_cases h : p.1 = k
      · simp [dset, dget, h]
      · simp [dset, dget, h, ih]

/-- Lookup after an update at a different key. -/
theorem dget_dset_ne (d : List (K × V)) (k k' : K) (v : V) (h : k' ≠ k) :
    dget (dset d k v) k' = dget d k' := by
  induction d with
  | nil => simp [dset, dget, Ne.symm h]
  | cons p rest ih =>
      by_cases hp : p.1 = k
      · subst hp
        simp [dset, dget, Ne.symm h]
      · simp [dset, dget, hp, ih]

/-- Lookup after any update, as one case split. -/
theorem dget_dset (d : List (K × V)) (k k' : K) (v : V) :
    dget (dset d k v) k' = if k' = k then some v else dget d k' := by
  by_cases h : k' = k
  · subst h; simp [dget_dset_self]
  · simp [h, dget_dset_ne d k k' v h]

/-- Appending a binding for an absent key makes it the lookup result. -/
theorem dget_append_of_none (d e : List (K × V)) (k : K)
    (h : dget d k = none) : dget (d ++ e) k = dget e k := by
  induction d with
  | nil => simp
  | cons p rest ih =>
      by_cases hp : p.1 = k
      · simp [dget, hp] at h
      · simp only [dget, hp, if_false, List.cons_append] at h ⊢
        exact ih h

/-- A successful lookup is unaffected by appending. -/
theorem dget_append_of_some (d e : List (K × V)) (k : K) (v : V)
    (h : dget d k = some v) : dget (d ++ e) k = some v := by
  induction d with
  | nil => simp [dget] at h
  | cons p rest ih =>
      by_cases hp : p.1 = k
      · simp only [dget, hp, if_true] at h
        simp [dget, hp, h]
      · simp only [dget, hp, if_false] at h
        simp only [List.cons_append, dget, hp, if_false]
        exact ih h

/-- The keys after an update: unchanged when the key was present,
extended by the key otherwise. -/
theorem dset_keys (d : List (K × V)) (k : K) (v : V) :
    (dset d k v).map Prod.fst =
      if (dget d k).isSome then d.map Prod.fst else d.map Prod.fst ++ [k] := by
  induction d with
  | nil => simp [dset, dget]
  | cons p rest ih =>
      by_cases hp : p.1 = k
      · simp [dset, dget, hp]
      · simp only [dset, hp, if_false, dget, List.map_cons, ih]
        by_cases hs : (dget rest k).isSome <;> simp [hs]

/-- A lookup hit is list membership. -/
theorem mem_of_dget (d : List (K × V)) (k : K) (v : V)
    (h : dget d k = some v) : (k, v) ∈ d := by
  induction d with
  | nil => simp [dget] at h
  | cons p rest ih =>
      by_cases hp : p.1 = k
      · simp only [dget, hp, if_true, Option.some.injEq] at h
        have hpv : (k, v) = p := by
          rw [← hp, ← h]
        rw [hpv]
        exact List.mem_cons_self p rest
      · simp only [dget, hp, if_false] at h
        exact List.mem_cons_of_mem p (ih h)

end DictLemmas

section DictLemmas2

variable {K V : Type} [DecidableEq K]

/-- A lookup misses exactly when the key is not among the keys. -/
theorem dget_eq_none_iff (d : List (K × V)) (k : K) :
    dget d k = none ↔ k ∉ d.map Prod.fst := by
  induction d with
  | nil => simp [dget]
  | cons p rest ih =>
      by_cases hp : p.1 = k
      · simp [dget, hp]
      · simp [dget, hp, ih, Ne.symm hp]

/-- With duplicate-free keys, membership determines the lookup. -/
theorem dget_of_mem_nodup (d : List (K × V)) (k : K) (v : V)
    (hn : (d.map Prod.fst).Nodup) (hm : (k, v) ∈ d) : dget d k = some v := by
  induction d with
  | nil => simp at hm
  | cons p rest ih =>
      simp only [List.map_cons, List.nodup_cons] at hn
      rcases List.mem_cons.mp hm with h | h
      · rw [← h]
        simp [dget]
      · have hk : p.1 ≠ k := by
          intro hh
          exact hn.1 (hh ▸ (List.mem_map_of_mem Prod.fst h))
        simp only [dget, hk, if_false]
        exact ih hn.2 h

end DictLemmas2

section CountsLemmas

/-- Lookup in the counts dict built from a starting dict: members of the
vote list read back their occurrence count added to the starting value. -/
theorem dget_countsFold (votes : List JsonValue) :
    ∀ (d : List (String × Nat)) (s : String),
      dget (countsFold d votes) s =
        if s ∈ votes.map pyStr then
          some ((dget d s).getD 0 + (votes.map pyStr).count s)
        else dget d s := by
  induction votes with
  | nil => intro d s; simp [countsFold]
  | cons v rest ih =>
      intro d s
      have hstep : countsFold d (v :: rest) =
          countsFold (dset d (pyStr v) ((dget d (pyStr v)).getD 0 + 1)) rest := rfl
      rw [hstep, ih]
      by_cases hs : s = pyStr v
      · have hget : dget (dset d (pyStr v) ((dget d (pyStr v)).getD 0 + 1)) s =
            some ((dget d s).getD 0 + 1) := by
          rw [hs, dget_dset_self]
        have hcnt : (List.map pyStr (v :: rest)).count s =
            (List.map pyStr rest).count s + 1 := by
          simp [hs, List.count_cons]
        have hmem2 : s ∈ List.map pyStr (v :: rest) := by
          simp [hs]
        by_cases hmem : s ∈ List.map pyStr rest
        · rw [if_pos hmem, if_pos hmem2, hget, hcnt]
          simp only [Option.getD_some, Option.some.injEq]
          omega
        · rw [if_neg hmem, if_pos hmem2, hget, hcnt,
            List.count_eq_zero_of_not_mem hmem]
      · have hget : dget (dset d (pyStr v) ((dget d (pyStr v)).getD 0 + 1)) s =
            dget d s := dget_dset_ne d (pyStr v) s _ hs
        have hcnt : (List.map pyStr (v :: rest)).count s =
            (List.map pyStr rest).count s := by
          simp [List.count_cons, hs]
        have hmem3 : (s ∈ List.map pyStr (v :: rest)) ↔ s ∈ List.map pyStr rest := by
          simp [hs]
        by_cases hmem : s ∈ List.map pyStr rest
        · rw [if_pos hmem, if_pos (hmem3.mpr hmem), hget, hcnt]
        · rw [if_neg hmem, if_neg (fun hh => hmem (hmem3.mp hh)), hget]

/-- Lookup in `vote_counts`: the occurrence count for tallied strings,
absent otherwise. -/
theorem dget_buildCounts (votes : List JsonValue) (s : String) :
    dget (buildCounts votes) s =
      if s ∈ votes.map pyStr then some ((votes.map pyStr).count s) else none := by
  simp [buildCounts, dget_countsFold votes [] s, dget]

/-- The counts dict has duplicate-free keys. -/
theorem countsFold_keys_nodup (votes : List JsonValue) :
    ∀ d : List (String × Nat), (d.map Prod.fst).Nodup →
      ((countsFold d votes).map Prod.fst).Nodup := by
  induction votes with
  | nil => intro d hd; simpa [countsFold] using hd
  | cons v rest ih =>
      intro d hd
      simp only [countsFold]
      apply ih
      rw [dset_keys]
      by_cases hk : (dget d (pyStr v)).isSome
      · simpa [hk] using hd
      · have hnone : dget d (pyStr v) = none := Option.not_isSome_iff_eq_none.mp hk
        simp only [hnone, Option.isSome_none, Bool.false_eq_true, if_false]
        rw [List.nodup_append]
        refine ⟨hd, List.nodup_singleton _, ?_⟩
        intro a ha hb
        simp only [List.mem_singleton] at hb
        rw [hb] at ha
        exact (dget_eq_none_iff d (pyStr v)).mp hnone ha

/-- `vote_counts` has duplicate-free keys. -/
theorem buildCounts_keys_nodup (votes : List JsonValue) :
    ((buildCounts votes).map Prod.fst).Nodup :=
  countsFold_keys_nodup votes [] (by simp)

/-- Membership in `vote_counts` is exactly being a tallied string paired
with its count. -/
theorem mem_buildCounts (votes : List JsonValue) (s : String) (c : Nat) :
    (s, c) ∈ buildCounts votes ↔
      s ∈ votes.map pyStr ∧ c = (votes.map pyStr).count s := by
  constructor
  · intro hm
    have := dget_of_mem_nodup _ _ _ (buildCounts_keys_nodup votes) hm
    rw [dget_buildCounts] at this
    by_cases hmem : s ∈ votes.map pyStr
    · simp only [hmem, if_true, Option.some.injEq] at this
      exact ⟨hmem, this.symm⟩
    · simp [hmem] at this
  · rintro ⟨hmem, rfl⟩
    apply mem_of_dget
    simp [dget_buildCounts, hmem]

end CountsLemmas

section MaxScanLemmas

/-- The running maximum dominates its seed. -/
theorem listMax_ge (l : List (String × Nat)) : ∀ m : Nat, m ≤ listMax m l := by
  induction l with
  | nil => intro m; simp [listMax]
  | cons p rest ih =>
      intro m
      simp only [listMax]
      exact le_trans (Nat.le_max_left m p.2) (ih (max m p.2))

/-- The running maximum dominates every listed count. -/
theorem listMax_ub (l : List (String × Nat)) :
    ∀ (m : Nat) (p : String × Nat), p ∈ l → p.2 ≤ listMax m l := by
  induction l with
  | nil => intro m p hp; simp at hp
  | cons q rest ih =>
      intro m p hp
      simp only [listMax]
      rcases List.mem_cons.mp hp with h | h
      · rw [h]
        exact le_trans (Nat.le_max_right m q.2) (listMax_ge rest (max m q.2))
      · exact ih (max m q.2) p h

/-- The running maximum is the seed or is attained by some entry. -/
theorem listMax_attained (l : List (String × Nat)) :
    ∀ m : Nat, listMax m l = m ∨ ∃ p ∈ l, p.2 = listMax m l := by
  induction l with
  | nil => intro m; left; rfl
  | cons q rest ih =>
      intro m
      simp only [listMax]
      rcases ih (max m q.2) with h | ⟨p, hp, hv⟩
      · rcases le_or_lt m q.2 with hle | hlt
        · right
          exact ⟨q, List.mem_cons_self q rest, by rw [h, Nat.max_eq_right hle]⟩
        · left
          rw [h, Nat.max_eq_left (le_of_lt hlt)]
      · right
        exact ⟨p, List.mem_cons_of_mem q hp, hv⟩

/-- Full characterization of the winner scan: the final `max_votes` is the
running maximum, and `winning_votes` is the seed (kept only when no count
exceeded the seed maximum) followed by the keys whose count equals the
final maximum, in insertion order. -/
theorem maxScan_spec (l : List (String × Nat)) :
    ∀ (m : Nat) (w : List String),
      maxScan (m, w) l =
        (listMax m l,
         (if listMax m l = m then w else []) ++
           (l.filter (fun p => p.2 = listMax m l)).map Prod.fst) := by
  induction l with
  | nil => intro m w; simp [maxScan, listMax]
  | cons p rest ih =>
      intro m w
      simp only [maxScan, listMax]
      by_cases h1 : p.2 > m
      · rw [if_pos h1, ih p.2 [p.1]]
        have hmax : max m p.2 = p.2 := Nat.max_eq_right (le_of_lt h1)
        simp only [hmax]
        have hMp : p.2 ≤ listMax p.2 rest := listMax_ge rest p.2
        rw [if_neg (by omega : ¬listMax p.2 rest = m)]
        by_cases h2 : p.2 = listMax p.2 rest
        · simp [List.filter_cons, ← h2]
        · have h2' : decide (p.2 = listMax p.2 rest) = false :=
            decide_eq_false h2
          have h2'' : ¬listMax p.2 rest = p.2 := fun hh => h2 hh.symm
          simp [List.filter_cons, h2', h2'']
      · rw [if_neg h1]
        by_cases h2 : p.2 = m
        · rw [if_pos h2, ih m (w ++ [p.1])]
          have hmax : max m p.2 = m := by omega
          simp only [hmax]
          by_cases h3 : listMax m rest = m
          · have hp2' : decide (p.2 = listMax m rest) = true :=
              decide_eq_true (h2.trans h3.symm)
            simp [List.filter_cons, h3, h2, hp2']
          · have hp2' : decide (p.2 = listMax m rest) = false :=
              decide_eq_false (by omega)
            simp [List.filter_cons, h3, hp2']
        · rw [if_neg h2, ih m w]
          have hmax : max m p.2 = m := by omega
          simp only [hmax]
          have hge : m ≤ listMax m rest := listMax_ge rest m
          have hp2' : decide (p.2 = listMax m rest) = false :=
            decide_eq_false (by omega)
          simp [List.filter_cons, hp2']

end MaxScanLemmas

section MaximalLemmas

/-- A strictly maximal option is maximal. -/
theorem maximal_of_strict (ss : List String) (w : String)
    (h : strictlyMaximalVote ss w) : maximalVote ss w := by
  refine ⟨h.1, fun t ht => ?_⟩
  by_cases hte : t = w
  · rw [hte]
  · exact le_of_lt (h.2 t ht hte)

/-- Strictly maximal options are unique. -/
theorem strict_unique (ss : List String) (w w' : String)
    (h : strictlyMaximalVote ss w) (h' : strictlyMaximalVote ss w') : w = w' := by
  by_contra hne
  have h1 := h.2 w' h'.1 (fun hh => hne hh.symm)
  have h2 := h'.2 w h.1 hne
  omega

/-- A maximal option that every maximal option equals is strictly
maximal. -/
theorem strict_of_unique_maximal (ss : List String) (w : String)
    (hw : maximalVote ss w) (huniq : ∀ t, maximalVote ss t → t = w) :
    strictlyMaximalVote ss w := by
  refine ⟨hw.1, fun t ht hne => ?_⟩
  have hle : ss.count t ≤ ss.count w := hw.2 t ht
  rcases Nat.lt_or_ge (ss.count t) (ss.count w) with hlt | hge
  · exact hlt
  · have heq : ss.count w = ss.count t := le_antisymm hge hle
    have : maximalVote ss t := ⟨ht, fun u hu => le_trans (hw.2 u hu) (le_of_eq heq)⟩
    exact absurd (huniq t this) hne

/-- If a strictly maximal option exists, every maximal option equals it. -/
theorem maximal_eq_of_strict (ss : List String) (w t : String)
    (hw : strictlyMaximalVote ss w) (ht : maximalVote ss t) : t = w := by
  by_contra hne
  have h1 := hw.2 t ht.1 hne
  have h2 := ht.2 w hw.1
  omega

/-- A duplicate-free list whose members all equal its member `w` is
`[w]`. -/
theorem eq_singleton_of_nodup (l : List String) (w : String)
    (hnd : l.Nodup) (hw : w ∈ l) (hall : ∀ x ∈ l, x = w) : l = [w] := by
  cases l with
  | nil => simp at hw
  | cons x t =>
      have hx : x = w := hall x (List.mem_cons_self x t)
      cases t with
      | nil => rw [hx]
      | cons y t' =>
          have hy : y = w := hall y (List.mem_cons_of_mem x (List.mem_cons_self y t'))
          rw [List.nodup_cons] at hnd
          exact absurd (by rw [hx, hy]; exact List.mem_cons_self w t') hnd.1

end MaximalLemmas

section ConsensusChar

/-- `coordinate_consensus` with no recorded votes (a missing key or an
empty vote list): `status="no_votes"` and only `status`/`message`
present. -/
theorem consensus_empty (st : OState) (topic task_id : String)
    (hvd : votesAt st topic task_id = []) :
    (coordinate_consensus st topic task_id).status = "no_votes" ∧
    (coordinate_consensus st topic task_id).consensus = none ∧
    (coordinate_consensus st topic task_id).vote_counts = none ∧
    (coordinate_consensus st topic task_id).total_votes = none := by
  unfold coordinate_consensus
  cases hget : dget st.active_votes (.str topic, some task_id) with
  | none => simp [noVotesResult]
  | some tally =>
      have hv : tally.votes = [] := by
        simpa [votesAt, tallyAt, hget] using hvd
      simp [hv, noVotesResult]

/-- With at least one recorded vote, `coordinate_consensus` reports the
vote total and the counts dict, and its status/consensus are governed by
the duplicate-free list of maximal options. -/
theorem consensus_char (st : OState) (topic task_id : String)
    (hne : votesAt st topic task_id ≠ []) :
    (coordinate_consensus st topic task_id).total_votes =
      some (votesAt st topic task_id).length ∧
    (coordinate_consensus st topic task_id).vote_counts =
      some (buildCounts (votesAt st topic task_id)) ∧
    ∃ ws : List String, ws ≠ [] ∧ ws.Nodup ∧
      (∀ s, s ∈ ws ↔ maximalVote ((votesAt st topic task_id).map pyStr) s) ∧
      ((∃ w, ws = [w] ∧
          (coordinate_consensus st topic task_id).status = "success" ∧
          (coordinate_consensus st topic task_id).consensus = some (.single w)) ∨
       (2 ≤ ws.length ∧
          (coordinate_consensus st topic task_id).status = "tie" ∧
          (coordinate_consensus st topic task_id).consensus = some (.multi ws))) := by
  obtain ⟨tally, hget, hv⟩ :
      ∃ tally, dget st.active_votes (.str topic, some task_id) = some tally ∧
        tally.votes = votesAt st topic task_id := by
    cases hget : dget st.active_votes (.str topic, some task_id) with
    | none =>
        exfalso
        exact hne (by simp [votesAt, tallyAt, hget])
    | some tally => exact ⟨tally, rfl, by simp [votesAt, tallyAt, hget]⟩
  have hvne : tally.votes ≠ [] := by rw [hv]; exact hne
  have hemp : tally.votes.isEmpty = false := by
    cases hveq : tally.votes with
    | nil => exact absurd hveq hvne
    | cons a l => rfl
  -- the counts dict is nonempty and all its values are positive
  have hcne : buildCounts tally.votes ≠ [] := by
    intro hbc
    cases hveq : tally.votes with
    | nil => exact hvne hveq
    | cons a l =>
        have hmem : pyStr a ∈ tally.votes.map pyStr := by
          rw [hveq]
          exact List.mem_map_of_mem pyStr (List.mem_cons_self a l)
        have hd := dget_buildCounts tally.votes (pyStr a)
        rw [hbc, if_pos hmem] at hd
        simp [dget] at hd
  have hcemp : (buildCounts tally.votes).isEmpty = false := by
    cases hceq : buildCounts tally.votes with
    | nil => exact absurd hceq hcne
    | cons a l => rfl
  have hpos : ∀ p ∈ buildCounts tally.votes, 1 ≤ p.2 := by
    intro p hp
    obtain ⟨hmem, hcount⟩ := (mem_buildCounts tally.votes p.1 p.2).mp hp
    rw [hcount]
    exact List.count_pos_iff.mpr hmem
  -- the final maximum and the winning list
  have hub : ∀ p ∈ buildCounts tally.votes,
      p.2 ≤ listMax 0 (buildCounts tally.votes) :=
    fun p hp => listMax_ub (buildCounts tally.votes) 0 p hp
  have hatt : ∃ p ∈ buildCounts tally.votes,
      p.2 = listMax 0 (buildCounts tally.votes) := by
    rcases listMax_attained (buildCounts tally.votes) 0 with h0 | h
    · exfalso
      cases hceq : buildCounts tally.votes with
      | nil => exact hcne hceq
      | cons a l =>
          have ha : a ∈ buildCounts tally.votes := by
            rw [hceq]; exact List.mem_cons_self a l
          have := hub a ha
          have := hpos a ha
          omega
    · exact h
  -- the winning list is exactly the maximal options
  have hwmem : ∀ s,
      s ∈ ((buildCounts tally.votes).filter
        (fun p => p.2 = listMax 0 (buildCounts tally.votes))).map Prod.fst ↔
        maximalVote (tally.votes.map pyStr) s := by
    intro s
    constructor
    · intro hs
      obtain ⟨p, hpf, hps⟩ := List.mem_map.mp hs
      obtain ⟨hpc, hpv⟩ := List.mem_filter.mp hpf
      have hpv' : p.2 = listMax 0 (buildCounts tally.votes) := by simpa using hpv
      obtain ⟨hmem, hcount⟩ := (mem_buildCounts tally.votes p.1 p.2).mp hpc
      rw [← hps]
      refine ⟨hmem, fun t ht => ?_⟩
      have htc : (t, (tally.votes.map pyStr).count t) ∈ buildCounts tally.votes :=
        (mem_buildCounts tally.votes t _).mpr ⟨ht, rfl⟩
      have := hub _ htc
      simp only at this
      omega
    · intro hs
      have hsc : (s, (tally.votes.map pyStr).count s) ∈ buildCounts tally.votes :=
        (mem_buildCounts tally.votes s _).mpr ⟨hs.1, rfl⟩
      have hle := hub _ hsc
      simp only at hle
      obtain ⟨p, hp, hpv⟩ := hatt
      obtain ⟨hpm, hpc⟩ := (mem_buildCounts tally.votes p.1 p.2).mp hp
      have hge : listMax 0 (buildCounts tally.votes) ≤
          (tally.votes.map pyStr).count s := by
        have := hs.2 p.1 hpm
        omega
      have heq : (tally.votes.map pyStr).count s =
          listMax 0 (buildCounts tally.votes) := le_antisymm hle hge
      apply List.mem_map.mpr
      refine ⟨(s, (tally.votes.map pyStr).count s), ?_, rfl⟩
      apply List.mem_filter.mpr
      exact ⟨hsc, by simpa using heq⟩
  have hwnd : (((buildCounts tally.votes).filter
      (fun p => p.2 = listMax 0 (buildCounts tally.votes))).map Prod.fst).Nodup :=
    List.Nodup.sublist
      (List.Sublist.map Prod.fst (List.filter_sublist _))
      (buildCounts_keys_nodup tally.votes)
  have hwne : ((buildCounts tally.votes).filter
      (fun p => p.2 = listMax 0 (buildCounts tally.votes))).map Prod.fst ≠ [] := by
    obtain ⟨p, hp, hpv⟩ := hatt
    intro hnil
    have : p.1 ∈ ((buildCounts tally.votes).filter
        (fun q => q.2 = listMax 0 (buildCounts tally.votes))).map Prod.fst := by
      apply List.mem_map.mpr
      exact ⟨p, List.mem_filter.mpr ⟨hp, by simpa using hpv⟩, rfl⟩
    rw [hnil] at this
    simp at this
  -- reduce the function body
  have hred : coordinate_consensus st topic task_id =
      (match ((buildCounts tally.votes).filter
          (fun p => p.2 = listMax 0 (buildCounts tally.votes))).map Prod.fst with
       | [w] =>
          (⟨"success",
            "Consensus reached: Majority voted for '" ++ w ++ "'.",
            some topic, some task_id, some tally.votes.length,
            some (buildCounts tally.votes), some (.single w)⟩ : ConsensusResult)
       | ws =>
          ⟨"tie",
           "No clear majority. Multiple top votes: " ++
             String.intercalate ", " ws ++ ".",
           some topic, some task_id, some tally.votes.length,
           some (buildCounts tally.votes), some (.multi ws)⟩) := by
    unfold coordinate_consensus
    rw [hget]
    simp only [hemp, Bool.false_eq_true, if_false, hcemp, maxScan_spec,
      ite_self, List.nil_append]
  rcases hws : ((buildCounts tally.votes).filter
      (fun p => p.2 = listMax 0 (buildCounts tally.votes))).map Prod.fst with
    _ | ⟨w, _ | ⟨w2, wt⟩⟩
  · exact absurd hws hwne
  · rw [hws] at hred
    refine ⟨by simp [hred, ← hv], by simp [hred, ← hv], [w], by simp, by simp, ?_, ?_⟩
    · intro s
      rw [← hws, ← hv]
      exact hwmem s
    · left
      exact ⟨w, rfl, by simp [hred], by simp [hred]⟩
  · rw [hws] at hred
    refine ⟨by simp [hred, ← hv], by simp [hred, ← hv], w :: w2 :: wt, by simp, ?_, ?_, ?_⟩
    · rw [← hws]
      exact hwnd
    · intro s
      rw [← hws, ← hv]
      exact hwmem s
    · right
      exact ⟨by simp, by simp [hred], by simp [hred]⟩

end ConsensusChar

/-- C1: for every recorded vote multiset for a key, `coordinate_consensus`
returns vote counts mapping each tallied string to its occurrence count,
a total equal to the number of recorded votes, status `"success"` with the
unique strictly maximal option as consensus when one exists, status
`"tie"` with the duplicate-free list of all maximal options when not, and
status `"no_votes"` (without raising — the function is total) when no
votes are recorded for the key. -/
theorem coordinate_consensus_correct (st : OState) (topic task_id : String) :
    (votesAt st topic task_id = [] →
      (coordinate_consensus st topic task_id).status = "no_votes") ∧
    (votesAt st topic task_id ≠ [] →
      (coordinate_consensus st topic task_id).total_votes =
        some (votesAt st topic task_id).length ∧
      (∃ cs, (coordinate_consensus st topic task_id).vote_counts = some cs ∧
        ∀ s, dget cs s =
          if s ∈ (votesAt st topic task_id).map pyStr then
            some (((votesAt st topic task_id).map pyStr).count s)
          else none) ∧
      ((∃ w, strictlyMaximalVote ((votesAt st topic task_id).map pyStr) w) →
        ∃ w, strictlyMaximalVote ((votesAt st topic task_id).map pyStr) w ∧
          (coordinate_consensus st topic task_id).status = "success" ∧
          (coordinate_consensus st topic task_id).consensus =
            some (.single w)) ∧
      (¬(∃ w, strictlyMaximalVote ((votesAt st topic task_id).map pyStr) w) →
        (coordinate_consensus st topic task_id).status = "tie" ∧
        ∃ ws, (coordinate_consensus st topic task_id).consensus =
            some (.multi ws) ∧
          2 ≤ ws.length ∧ ws.Nodup ∧
          ∀ s, (s ∈ ws ↔
            maximalVote ((votesAt st topic task_id).map pyStr) s))) := by
  constructor
  · intro hvd
    exact (consensus_empty st topic task_id hvd).1
  · intro hne
    obtain ⟨htot, hcnt, ws, hwne, hwnd, hwmem, hdisj⟩ :=
      consensus_char st topic task_id hne
    refine ⟨htot, ⟨buildCounts (votesAt st topic task_id), hcnt, ?_⟩, ?_, ?_⟩
    · intro s
      exact dget_buildCounts (votesAt st topic task_id) s
    · rintro ⟨w, hw⟩
      rcases hdisj with ⟨w', hws, hst, hcons⟩ | ⟨hlen, hst, hcons⟩
      · have hw'max : maximalVote ((votesAt st topic task_id).map pyStr) w' :=
          (hwmem w').mp (by rw [hws]; exact List.mem_cons_self w' [])
        have hw'w : w' = w := maximal_eq_of_strict _ w w' hw hw'max
        exact ⟨w', hw'w ▸ hw, hst, hcons⟩
      · exfalso
        have hwin : w ∈ ws := (hwmem w).mpr (maximal_of_strict _ w hw)
        have hall : ∀ x ∈ ws, x = w := by
          intro x hx
          exact maximal_eq_of_strict _ w x hw ((hwmem x).mp hx)
        have := eq_singleton_of_nodup ws w hwnd hwin hall
        rw [this] at hlen
        simp at hlen
    · intro hnostrict
      rcases hdisj with ⟨w', hws, hst, hcons⟩ | ⟨hlen, hst, hcons⟩
      · exfalso
        apply hnostrict
        have hw'max : maximalVote ((votesAt st topic task_id).map pyStr) w' :=
          (hwmem w').mp (by rw [hws]; exact List.mem_cons_self w' [])
        refine ⟨w', strict_of_unique_maximal _ w' hw'max ?_⟩
        intro t ht
        have : t ∈ ws := (hwmem t).mpr ht
        rw [hws] at this
        simpa using this
      · exact ⟨hst, ws, hcons, hlen, hwnd, hwmem⟩

/-- Witness for C1: on the scenario-A tally (Approve, Approve, Reject)
the recorded votes are nonempty and the reported total is their number. -/
theorem coordinate_consensus_correct_witness :
    votesAt exVotedSt "approve_code_fix" "t1" ≠ [] ∧
    (coordinate_consensus exVotedSt "approve_code_fix" "t1").total_votes =
      some (votesAt exVotedSt "approve_code_fix" "t1").length :=
  ⟨by decide,
   ((coordinate_consensus_correct exVotedSt "approve_code_fix" "t1").2
     (by decide)).1⟩

section VoteStep

/-- Effect of `_process_vote_message` on the tally of the key the message
files under: unchanged for a repeated sender, otherwise the sender and the
raw vote value are appended. -/
theorem process_vote_tallyAt (st : OState) (m : AgentMessage) :
    tallyAt (process_vote_message st m) (voteKeyOf m) =
      if m.sender_id ∈ (tallyAt st (voteKeyOf m)).voted_agents then
        tallyAt st (voteKeyOf m)
      else
        ⟨(tallyAt st (voteKeyOf m)).voted_agents ++ [m.sender_id],
         (tallyAt st (voteKeyOf m)).votes ++ [voteOf m]⟩ := by
  have hkey : tallyAt (process_vote_message st m) (voteKeyOf m) =
      (dget (voteUpdate st.active_votes m) (voteKeyOf m)).getD ⟨[], []⟩ := rfl
  rw [hkey]
  simp only [voteUpdate]
  cases hget : dget st.active_votes (voteKeyOf m) with
  | none =>
      have htal : tallyAt st (voteKeyOf m) = ⟨[], []⟩ := by
        simp [tallyAt, hget]
      have hdm : dmem st.active_votes (voteKeyOf m) = false := by
        simp [dmem, hget]
      have hav : dget (st.active_votes ++ [(voteKeyOf m, (⟨[], []⟩ : Tally))])
          (voteKeyOf m) = some ⟨[], []⟩ := by
        rw [dget_append_of_none _ _ _ hget]
        simp [dget]
      simp only [voteKeyOf] at hdm hav htal ⊢
      simp [hdm, hav, htal, dget_dset_self, voteOf]
  | some t =>
      have htal : tallyAt st (voteKeyOf m) = t := by
        simp [tallyAt, hget]
      have hdm : dmem st.active_votes (voteKeyOf m) = true := by
        simp [dmem, hget]
      simp only [voteKeyOf] at hdm hget htal ⊢
      simp only [hdm]
      by_cases hs : m.sender_id ∈ t.voted_agents
      · simp [hget, htal, hs]
      · simp [hget, htal, hs, dget_dset_self, voteOf]

/-- `_process_vote_message` never touches the task registry. -/
theorem process_vote_tasks (st : OState) (m : AgentMessage) :
    (process_vote_message st m).tasks = st.tasks := rfl

/-- The tally update of `_process_vote_message` reads only
`active_votes`, never the task registry. -/
theorem process_vote_ignores_registry (st : OState) (m : AgentMessage)
    (tasks' : List (String × TaskRecord)) :
    (process_vote_message { st with tasks := tasks' } m).active_votes =
      (process_vote_message st m).active_votes := rfl

end VoteStep

/-- C5: a VOTE from an agent already in the key's `voted_agents` leaves
`active_votes` — in particular that key's tally — unchanged: the second
vote value is not appended, so each agent contributes at most one vote
per key (first-vote-wins). -/
theorem duplicate_vote_ignored (st : OState) (m : AgentMessage)
    (h : m.sender_id ∈ (tallyAt st (voteKeyOf m)).voted_agents) :
    (process_vote_message st m).active_votes = st.active_votes ∧
    tallyAt (process_vote_message st m) (voteKeyOf m) =
      tallyAt st (voteKeyOf m) := by
  cases hget : dget st.active_votes (voteKeyOf m) with
  | none =>
      exfalso
      rw [tallyAt, hget] at h
      simp at h
  | some t =>
      have htal : tallyAt st (voteKeyOf m) = t := by
        simp [tallyAt, hget]
      have hdm : dmem st.active_votes (voteKeyOf m) = true := by
        simp [dmem, hget]
      have hs : m.sender_id ∈ t.voted_agents := htal ▸ h
      constructor
      · have hact : (process_vote_message st m).active_votes =
            voteUpdate st.active_votes m := rfl
        rw [hact]
        simp only [voteUpdate]
        simp only [voteKeyOf] at hdm hget
        rw [hdm]
        simp [hget, hs]
      · rw [process_vote_tallyAt]
        rw [if_pos h]

/-- Witness for C5: in the scenario-A tally, `a1` votes again; the
recorded tally is unchanged. -/
theorem duplicate_vote_ignored_witness :
    exDupVoteMsg.sender_id ∈
      (tallyAt exVotedSt (voteKeyOf exDupVoteMsg)).voted_agents ∧
    (process_vote_message exVotedSt exDupVoteMsg).active_votes =
      exVotedSt.active_votes :=
  ⟨by decide, (duplicate_vote_ignored exVotedSt exDupVoteMsg (by decide)).1⟩

/-- C2 (counterexample): a VOTE whose task id `t99` was never issued is
*not* dropped: processing it changes the vote tallies even though the
task registry is empty. -/
theorem vote_unknown_task_recorded :
    exBase.tasks = [] ∧
    (process_vote_message exBase exVoteMsg).active_votes ≠
      exBase.active_votes := by
  refine ⟨rfl, ?_⟩
  decide

/-- C2 (amended): a RESULT whose task id is not in the registry is
dropped with a warning — registry, tallies and everything but the log
unchanged — and never raises; a VOTE, however, is recorded into the tally
for its `(vote_topic, task_id)` key without consulting the task registry
at all, issued or not. -/
theorem unknown_task_handling (st : OState) (m : AgentMessage) (tid : String)
    (htid : m.task_id = some tid) (hunk : dget st.tasks tid = none) :
    (collect_results st m).tasks = st.tasks ∧
    (collect_results st m).active_votes = st.active_votes ∧
    (collect_results st m).log =
      st.log ++ ["Warning: Received result for unknown task " ++ tid] ∧
    (process_vote_message st m).tasks = st.tasks ∧
    (∀ tasks', (process_vote_message { st with tasks := tasks' } m).active_votes =
      (process_vote_message st m).active_votes) ∧
    (m.sender_id ∉ (tallyAt st (voteKeyOf m)).voted_agents →
      (tallyAt (process_vote_message st m) (voteKeyOf m)).votes =
        (tallyAt st (voteKeyOf m)).votes ++ [voteOf m]) := by
  refine ⟨?_, ?_, ?_, process_vote_tasks st m,
    fun tasks' => process_vote_ignores_registry st m tasks', ?_⟩
  · simp [collect_results, htid, hunk]
  · simp [collect_results, htid, hunk]
  · simp [collect_results, htid, hunk]
  · intro hs
    rw [process_vote_tallyAt, if_neg hs]

/-- Witness for C2's amended claim: the concrete unknown-task RESULT is
dropped with the unchanged registry, while the concrete unknown-task VOTE
is recorded. -/
theorem unknown_task_handling_witness :
    (collect_results exBase exResultMsg).tasks = exBase.tasks ∧
    (tallyAt (process_vote_message exBase exVoteMsg) (voteKeyOf exVoteMsg)).votes =
      (tallyAt exBase (voteKeyOf exVoteMsg)).votes ++ [voteOf exVoteMsg] :=
  ⟨(unknown_task_handling exBase exResultMsg "t99" (by decide) (by decide)).1,
   ((unknown_task_handling exBase exVoteMsg "t99" (by decide)
      (by decide)).2.2.2.2.2) (by decide)⟩

/-- C3 (code evaluation at the failing input): a TASK for the
QualityAgent with `type="review_code"` but no `details` key makes
`handle_task` raise `AttributeError` (`None` has no `.get`), and
`_process_task_message` has no `try/except`, so the exception escapes the
agent boundary instead of becoming a `status="error"` RESULT. -/
theorem handler_exception_escapes :
    process_task_message "qa1" "orchestrator_1"
      (quality_handle_task (.ok "fine")) exTaskNoDetails =
      .error (.attributeError "this object has no attribute get") := rfl

/-- C4 (counterexample): the one message a fresh orchestrator publishes
for `assign_task("agent_a", {}, "review_code")` is a TASK envelope whose
envelope `task_id` field is null. -/
theorem task_envelope_task_id_null :
    ((assign_task exBase "agent_a" [] "review_code").2.sent.map
      (fun sm => (sm.message.message_type, sm.message.task_id))) =
      [("TASK", none)] := by
  decide

/-- C4 (amended): RESULT and VOTE envelopes carry the non-null `task_id`
passed to `send_results`/`send_vote`; the TASK envelope published by
`assign_task` has a null envelope `task_id` and carries the generated id
in `payload["task_id"]` instead; in the orchestrated flow the RESULT the
agent publishes for a TASK carries exactly that id. -/
theorem envelope_task_id_amended (st : OState)
    (oid aid agentId tid task_type topic : String)
    (pl results : PyDict) (vote : JsonValue) :
    (send_results aid oid tid results).message.message_type = "RESULT" ∧
    (send_results aid oid tid results).message.task_id = some tid ∧
    (send_vote aid tid vote topic).message.message_type = "VOTE" ∧
    (send_vote aid tid vote topic).message.task_id = some tid ∧
    (taskMessage oid agentId tid task_type pl).message_type = "TASK" ∧
    (taskMessage oid agentId tid task_type pl).task_id = none ∧
    dget (taskMessage oid agentId tid task_type pl).payload "task_id" =
      some (.str tid) ∧
    (assign_task st agentId pl task_type).2.sent =
      st.sent ++ [⟨TASK_EXCHANGE, agentId,
        taskMessage st.orchestrator_id agentId
          (assign_task st agentId pl task_type).1 task_type pl⟩] ∧
    (∀ handler res,
      handler (some (.str task_type)) (some (.obj pl)) = .ok res →
      process_task_message aid oid handler
        (taskMessage oid agentId tid task_type pl) =
        .ok (send_results aid oid tid res)) := by
  refine ⟨rfl, rfl, rfl, rfl, rfl, rfl, ?_, rfl, ?_⟩
  · simp [taskMessage, dget]
  · intro handler res h
    have h1 : dget (taskMessage oid agentId tid task_type pl).payload "type" =
        some (.str task_type) := by
      simp [taskMessage, dget]
    have h2 : dget (taskMessage oid agentId tid task_type pl).payload "details" =
        some (.obj pl) := by
      simp [taskMessage, dget]
    have h3 : dget (taskMessage oid agentId tid task_type pl).payload "task_id" =
        some (.str tid) := by
      simp [taskMessage, dget]
    simp [process_task_message, h1, h2, h3, h]

/-- Witness for C4's amended claim: the concrete TASK for `agent_a` is
answered by a RESULT carrying the id `t1` from the TASK payload. -/
theorem envelope_task_id_amended_witness :
    process_task_message "a1" "orchestrator_1"
      (fun _ _ => .ok [("status", .str "success")])
      (taskMessage "orchestrator_1" "agent_a" "t1" "review_code" []) =
      .ok (send_results "a1" "orchestrator_1" "t1"
        [("status", .str "success")]) :=
  ((envelope_task_id_amended exBase "orchestrator_1" "a1" "agent_a" "t1"
      "review_code" "topic" [] [] .null).2.2.2.2.2.2.2.2)
    (fun _ _ => .ok [("status", .str "success")])
    [("status", .str "success")] rfl

section TaskRegistry

/-- The ids returned by a run of `assign_task` calls are successive draws
of the uuid stream. -/
theorem assignMany_ids (calls : List (String × PyDict × String)) :
    ∀ st : OState, (assignMany st calls).1 =
      (List.range calls.length).map (fun i => st.uuids (st.uuidCount + i)) := by
  induction calls with
  | nil => intro st; simp [assignMany]
  | cons c rest ih =>
      intro st
      obtain ⟨a, p, ty⟩ := c
      simp only [assignMany]
      rw [ih]
      have harith : ∀ i : Nat, st.uuidCount + 1 + i = st.uuidCount + (i + 1) := by
        omega
      simp [assign_task, List.range_succ_eq_map, List.map_map, Function.comp,
        harith]

/-- `exUuids` is injective. -/
theorem exUuids_injective : Function.Injective exUuids := by
  intro a b h
  have h2 : List.replicate (a + 1) 'u' = List.replicate (b + 1) 'u' :=
    congrArg String.data h
  have h3 := congrArg List.length h2
  simp only [List.length_replicate] at h3
  omega

/-- Effect of `collect_results` on a registered task: the record is
completed and the payload stored, whatever the payload says. -/
theorem collect_results_known (st : OState) (tid : String) (r : TaskRecord)
    (m : AgentMessage) (hr : dget st.tasks tid = some r)
    (hm : m.task_id = some tid) :
    (collect_results st m).tasks =
      dset st.tasks tid ⟨r.agent_id, "completed", some m.payload⟩ ∧
    dget (collect_results st m).tasks tid =
      some ⟨r.agent_id, "completed", some m.payload⟩ := by
  constructor
  · simp [collect_results, hm, hr]
  · simp [collect_results, hm, hr, dget_dset_self]

/-- `collect_results` leaves every other task record alone. -/
theorem collect_results_other (st : OState) (m : AgentMessage) (tid : String)
    (hm : m.task_id ≠ some tid) :
    dget (collect_results st m).tasks tid = dget st.tasks tid := by
  cases htid : m.task_id with
  | none => simp [collect_results, htid]
  | some t =>
      have hne : t ≠ tid := by
        intro hh
        exact hm (by rw [htid, hh])
      cases hget : dget st.tasks t with
      | none => simp [collect_results, htid, hget]
      | some r' =>
          simp only [collect_results, htid, hget]
          exact dget_dset_ne st.tasks t tid _ (Ne.symm hne)

end TaskRegistry

/-- C8: within one orchestrator instance (an injective fresh-id stream),
the task ids returned by any sequence of `assign_task` calls are pairwise
distinct; and immediately after `assign_task(agentId, payload, taskType)`
returns `taskId`, the registry holds
`{agent_id: agentId, status: "assigned", results: None}` under `taskId`
and a TASK envelope routed to `agentId` has been published. -/
theorem assign_task_correct (st : OState)
    (calls : List (String × PyDict × String))
    (hinj : Function.Injective st.uuids) :
    (assignMany st calls).1.Nodup ∧
    ∀ a p ty,
      dget (assign_task st a p ty).2.tasks (assign_task st a p ty).1 =
        some ⟨a, "assigned", none⟩ ∧
      (assign_task st a p ty).2.sent = st.sent ++
        [⟨TASK_EXCHANGE, a, taskMessage st.orchestrator_id a
          (assign_task st a p ty).1 ty p⟩] := by
  constructor
  · rw [assignMany_ids]
    have hinj2 : Function.Injective (fun i => st.uuids (st.uuidCount + i)) := by
      intro a b h
      have := hinj h
      omega
    exact List.Nodup.map hinj2 (List.nodup_range calls.length)
  · intro a p ty
    exact ⟨dget_dset_self st.tasks _ _, rfl⟩

/-- Witness for C8: two concrete calls return distinct ids `"u"`, `"uu"`. -/
theorem assign_task_correct_witness :
    (assignMany exBase [("a1", [], "review"), ("a2", [], "review")]).1.Nodup :=
  (assign_task_correct exBase [("a1", [], "review"), ("a2", [], "review")]
    exUuids_injective).1

/-- C9: a registered task's record — in particular `status="assigned"` —
is untouched by any operation that is not a RESULT carrying its id (and
whose fresh draw is not an id collision); a RESULT carrying its id sets
`status="completed"` and stores that RESULT's payload; a duplicate RESULT
is applied the same way, last write winning. -/
theorem task_lifecycle (st : OState) (tid : String) (r : TaskRecord)
    (hr : dget st.tasks tid = some r) :
    (∀ op : Op, (∀ m, op = Op.result m → m.task_id ≠ some tid) →
      (∀ a p ty, op = Op.assign a p ty → st.uuids st.uuidCount ≠ tid) →
      dget (applyOp st op).tasks tid = some r) ∧
    (∀ m : AgentMessage, m.task_id = some tid →
      dget (collect_results st m).tasks tid =
        some ⟨r.agent_id, "completed", some m.payload⟩) ∧
    (∀ m m' : AgentMessage, m.task_id = some tid → m'.task_id = some tid →
      dget (collect_results (collect_results st m) m').tasks tid =
        some ⟨r.agent_id, "completed", some m'.payload⟩) := by
  refine ⟨?_, ?_, ?_⟩
  · intro op hres hassign
    cases op with
    | assign a p ty =>
        have hne : st.uuids st.uuidCount ≠ tid := hassign a p ty rfl
        simp only [applyOp, assign_task]
        rw [dget_dset_ne st.tasks _ tid _ (Ne.symm hne)]
        exact hr
    | result m =>
        have hne : m.task_id ≠ some tid := hres m rfl
        simp only [applyOp]
        rw [collect_results_other st m tid hne]
        exact hr
    | vote m =>
        simp only [applyOp]
        rw [process_vote_tasks]
        exact hr
  · intro m hm
    exact (collect_results_known st tid r m hr hm).2
  · intro m m' hm hm'
    have h1 := (collect_results_known st tid r m hr hm).2
    exact (collect_results_known (collect_results st m) tid
      ⟨r.agent_id, "completed", some m.payload⟩ m' h1 hm').2

/-- Witness for C9: after assigning `"u"` to `agent_a`, the concrete
RESULT for `"u"` completes the record and stores its payload. -/
theorem task_lifecycle_witness :
    dget (collect_results exAssigned exResultU).tasks "u" =
      some ⟨"agent_a", "completed", some exResultU.payload⟩ :=
  ((task_lifecycle exAssigned "u" ⟨"agent_a", "assigned", none⟩
    (by decide)).2.1) exResultU (by decide)

/-- One operation preserves the status invariant. -/
theorem statusOK_step (st : OState) (op : Op) (h : statusOK st) :
    statusOK (applyOp st op) := by
  cases op with
  | assign a p ty =>
      intro tid r hget
      simp only [applyOp, assign_task] at hget
      rw [dget_dset st.tasks _ tid _] at hget
      by_cases htid : tid = st.uuids st.uuidCount
      · rw [if_pos htid] at hget
        left
        cases hget
        rfl
      · rw [if_neg htid] at hget
        exact h tid r hget
  | result m =>
      intro tid r hget
      simp only [applyOp] at hget
      cases htid : m.task_id with
      | none =>
          rw [collect_results_other st m tid (by rw [htid]; intro hh; cases hh)]
            at hget
          exact h tid r hget
      | some t =>
          cases hget2 : dget st.tasks t with
          | none =>
              have : dget (collect_results st m).tasks tid = dget st.tasks tid := by
                simp [collect_results, htid, hget2]
              rw [this] at hget
              exact h tid r hget
          | some r' =>
              have hk := (collect_results_known st t r' m hget2 htid).1
              rw [hk, dget_dset st.tasks t tid _] at hget
              by_cases htt : tid = t
              · rw [if_pos htt] at hget
                right
                cases hget
                rfl
              · rw [if_neg htt] at hget
                exact h tid r hget
  | vote m =>
      intro tid r hget
      simp only [applyOp] at hget
      rw [process_vote_tasks] at hget
      exact h tid r hget

/-- C10: in every state reachable from a fresh orchestrator by
`assign_task`, RESULT and VOTE operations, each task record's status is
`"assigned"` or `"completed"`; and `collect_results` sets a known task to
`"completed"` storing the payload even when the payload itself carries
`status="error"` — no operation ever writes the `"error"` task status. -/
theorem task_status_invariant (oid : String) (uuids : Nat → String)
    (ops : List Op) (tid : String) (r : TaskRecord)
    (hr : dget (runOps (initOState oid uuids) ops).tasks tid = some r) :
    (r.status = "assigned" ∨ r.status = "completed") ∧
    (∀ (st' : OState) (m : AgentMessage) (tid' : String) (r' : TaskRecord),
      dget st'.tasks tid' = some r' → m.task_id = some tid' →
      dget (collect_results st' m).tasks tid' =
        some ⟨r'.agent_id, "completed", some m.payload⟩) := by
  constructor
  · have hbase : statusOK (initOState oid uuids) := by
      intro tid' r' hget
      simp [initOState, dget] at hget
    have hfold : ∀ (ops' : List Op) (st : OState),
        statusOK st → statusOK (ops'.foldl applyOp st) := by
      intro ops'
      induction ops' with
      | nil => intro st hst; exact hst
      | cons op rest ih => intro st hst; exact ih _ (statusOK_step st op hst)
    exact hfold ops _ hbase tid r hr
  · intro st' m tid' r' hget hm
    exact (collect_results_known st' tid' r' m hget hm).2

/-- Witness for C10: the record after one assignment and one
`status="error"` RESULT has status `"completed"`. -/
theorem task_status_invariant_witness :
    ((⟨"agent_a", "completed", some exResultU.payload⟩ : TaskRecord).status =
        "assigned" ∨
      (⟨"agent_a", "completed", some exResultU.payload⟩ : TaskRecord).status =
        "completed") :=
  (task_status_invariant "orchestrator_1" exUuids
    [Op.assign "agent_a" [] "review_code", Op.result exResultU] "u"
    ⟨"agent_a", "completed", some exResultU.payload⟩ (by decide)).1

section OrderIndependence

/-- Folding a batch of VOTE messages for one key over the state: the
fresh senders' votes are appended in arrival order, votes from senders
already recorded at the start are dropped (senders within the batch being
distinct). -/
theorem foldl_process_vote (key : VoteKey) :
    ∀ (msgs : List AgentMessage) (st : OState),
      (∀ m ∈ msgs, voteKeyOf m = key) →
      (msgs.map AgentMessage.sender_id).Nodup →
      tallyAt (msgs.foldl process_vote_message st) key =
        ⟨(tallyAt st key).voted_agents ++
          (msgs.filter (fun m =>
            decide (m.sender_id ∉ (tallyAt st key).voted_agents))).map
            AgentMessage.sender_id,
         (tallyAt st key).votes ++
          (msgs.filter (fun m =>
            decide (m.sender_id ∉ (tallyAt st key).voted_agents))).map
            voteOf⟩ := by
  intro msgs
  induction msgs with
  | nil =>
      intro st _ _
      simp
  | cons m msgs ih =>
      intro st hkey hnd
      have hm : voteKeyOf m = key := hkey m (List.mem_cons_self m msgs)
      have hkeyT : ∀ m' ∈ msgs, voteKeyOf m' = key :=
        fun m' hm' => hkey m' (List.mem_cons_of_mem m hm')
      simp only [List.map_cons, List.nodup_cons] at hnd
      have hstep := process_vote_tallyAt st m
      rw [hm] at hstep
      simp only [List.foldl_cons]
      by_cases hs : m.sender_id ∈ (tallyAt st key).voted_agents
      · rw [if_pos hs] at hstep
        rw [ih (process_vote_message st m) hkeyT hnd.2, hstep]
        simp [List.filter_cons, hs]
      · rw [if_neg hs] at hstep
        rw [ih (process_vote_message st m) hkeyT hnd.2, hstep]
        have hfil : msgs.filter (fun m' =>
            decide (m'.sender_id ∉
              ((tallyAt st key).voted_agents ++ [m.sender_id]))) =
          msgs.filter (fun m' =>
            decide (m'.sender_id ∉ (tallyAt st key).voted_agents)) := by
          apply List.filter_congr
          intro m' hm'
          have hne : m'.sender_id ≠ m.sender_id := by
            intro hh
            exact hnd.1 (hh ▸ List.mem_map_of_mem AgentMessage.sender_id hm')
          simp [List.mem_append, hne]
        rw [hfil]
        simp [List.filter_cons, hs, List.append_assoc]

/-- Being a maximal option is invariant under permutation of the tallied
strings. -/
theorem maximalVote_perm (ss ss' : List String) (h : ss.Perm ss') (s : String) :
    maximalVote ss s ↔ maximalVote ss' s := by
  unfold maximalVote
  constructor
  · rintro ⟨hm, hmax⟩
    exact ⟨h.mem_iff.mp hm, fun t ht => by
      rw [← h.count_eq, ← h.count_eq]
      exact hmax t (h.mem_iff.mpr ht)⟩
  · rintro ⟨hm, hmax⟩
    exact ⟨h.mem_iff.mpr hm, fun t ht => by
      rw [h.count_eq, h.count_eq]
      exact hmax t (h.mem_iff.mp ht)⟩

/-- Being the strictly maximal option is invariant under permutation. -/
theorem strictlyMaximalVote_perm (ss ss' : List String) (h : ss.Perm ss')
    (s : String) : strictlyMaximalVote ss s ↔ strictlyMaximalVote ss' s := by
  unfold strictlyMaximalVote
  constructor
  · rintro ⟨hm, hmax⟩
    exact ⟨h.mem_iff.mp hm, fun t ht hne => by
      rw [← h.count_eq, ← h.count_eq]
      exact hmax t (h.mem_iff.mpr ht) hne⟩
  · rintro ⟨hm, hmax⟩
    exact ⟨h.mem_iff.mpr hm, fun t ht hne => by
      rw [h.count_eq, h.count_eq]
      exact hmax t (h.mem_iff.mp ht) hne⟩

/-- If two states record permuted vote lists for a key, their consensus
results agree in status, in the counts map (pointwise), and in the set of
consensus values. -/
theorem consensus_perm_invariant (stA stB : OState) (topic task_id : String)
    (hp : (votesAt stA topic task_id).Perm (votesAt stB topic task_id)) :
    (coordinate_consensus stA topic task_id).status =
      (coordinate_consensus stB topic task_id).status ∧
    (∀ s, countsOf (coordinate_consensus stA topic task_id) s =
      countsOf (coordinate_consensus stB topic task_id) s) ∧
    (∀ s, s ∈ consensusElems (coordinate_consensus stA topic task_id).consensus ↔
      s ∈ consensusElems (coordinate_consensus stB topic task_id).consensus) := by
  have hss : ((votesAt stA topic task_id).map pyStr).Perm
      ((votesAt stB topic task_id).map pyStr) := hp.map pyStr
  by_cases hA : votesAt stA topic task_id = []
  · have hB : votesAt stB topic task_id = [] := by
      rw [hA] at hp
      exact hp.symm.eq_nil
    obtain ⟨hsA, hcA, hvA, _⟩ := consensus_empty stA topic task_id hA
    obtain ⟨hsB, hcB, hvB, _⟩ := consensus_empty stB topic task_id hB
    refine ⟨by rw [hsA, hsB], ?_, ?_⟩
    · intro s
      simp [countsOf, hvA, hvB, dget]
    · intro s
      simp [consensusElems, hcA, hcB]
  · have hB : votesAt stB topic task_id ≠ [] := by
      intro hB0
      rw [hB0] at hp
      exact hA hp.eq_nil
    obtain ⟨_, hcntA, wsA, hAne, hAnd, hAmem, hAdisj⟩ :=
      consensus_char stA topic task_id hA
    obtain ⟨_, hcntB, wsB, hBne, hBnd, hBmem, hBdisj⟩ :=
      consensus_char stB topic task_id hB
    -- a strictly maximal option forces the winner list to be a singleton
    have hsel : ∀ (ss ws : List String), ws.Nodup →
        (∀ s, s ∈ ws ↔ maximalVote ss s) →
        ∀ w, strictlyMaximalVote ss w → ws = [w] := by
      intro ss ws hnd2 hmem w hw
      refine eq_singleton_of_nodup ws w hnd2
        ((hmem w).mpr (maximal_of_strict _ w hw)) ?_
      intro x hx
      exact maximal_eq_of_strict _ w x hw ((hmem x).mp hx)
    -- a singleton winner list yields a strictly maximal option
    have hsingle : ∀ (ss ws : List String),
        (∀ s, s ∈ ws ↔ maximalVote ss s) →
        ∀ w, ws = [w] → strictlyMaximalVote ss w := by
      intro ss ws hmem w hws
      have hwmax : maximalVote ss w := by
        refine (hmem w).mp ?_
        rw [hws]
        exact List.mem_cons_self w []
      refine strict_of_unique_maximal _ w hwmax ?_
      intro t ht
      have hin : t ∈ ws := (hmem t).mpr ht
      rw [hws] at hin
      simpa using hin
    refine ⟨?_, ?_, ?_⟩
    · -- status
      by_cases hstrict :
          ∃ w, strictlyMaximalVote ((votesAt stA topic task_id).map pyStr) w
      · obtain ⟨w, hw⟩ := hstrict
        have hwB : strictlyMaximalVote
            ((votesAt stB topic task_id).map pyStr) w :=
          (strictlyMaximalVote_perm _ _ hss w).mp hw
        rcases hAdisj with ⟨wA, hwsA, hstA, _⟩ | ⟨hlenA, _, _⟩
        · rcases hBdisj with ⟨wB, hwsB, hstB, _⟩ | ⟨hlenB, _, _⟩
          · rw [hstA, hstB]
          · exfalso
            rw [hsel _ wsB hBnd hBmem w hwB] at hlenB
            simp at hlenB
        · exfalso
          rw [hsel _ wsA hAnd hAmem w hw] at hlenA
          simp at hlenA
      · have hstrictB : ¬∃ w, strictlyMaximalVote
            ((votesAt stB topic task_id).map pyStr) w := by
          rintro ⟨w, hw⟩
          exact hstrict ⟨w, (strictlyMaximalVote_perm _ _ hss w).mpr hw⟩
        rcases hAdisj with ⟨wA, hwsA, _, _⟩ | ⟨_, hstA, _⟩
        · exact absurd ⟨wA, hsingle _ wsA hAmem wA hwsA⟩ hstrict
        · rcases hBdisj with ⟨wB, hwsB, _, _⟩ | ⟨_, hstB, _⟩
          · exact absurd ⟨wB, hsingle _ wsB hBmem wB hwsB⟩ hstrictB
          · rw [hstA, hstB]
    · -- counts, pointwise
      intro s
      rw [countsOf, countsOf, hcntA, hcntB]
      simp only [Option.getD_some]
      rw [dget_buildCounts, dget_buildCounts]
      by_cases hmem : s ∈ (votesAt stA topic task_id).map pyStr
      · rw [if_pos hmem, if_pos (hss.mem_iff.mp hmem), hss.count_eq]
      · rw [if_neg hmem, if_neg (fun hh => hmem (hss.mem_iff.mpr hh))]
    · -- consensus set
      by_cases hstrict :
          ∃ w, strictlyMaximalVote ((votesAt stA topic task_id).map pyStr) w
      · obtain ⟨w, hw⟩ := hstrict
        have hwB : strictlyMaximalVote
            ((votesAt stB topic task_id).map pyStr) w :=
          (strictlyMaximalVote_perm _ _ hss w).mp hw
        rcases hAdisj with ⟨wA, hwsA, _, hconsA⟩ | ⟨hlenA, _, _⟩
        · rcases hBdisj with ⟨wB, hwsB, _, hconsB⟩ | ⟨hlenB, _, _⟩
          · intro s
            rw [hconsA, hconsB]
            have h1 : wA = w := by
              have h0 := hwsA.symm.trans (hsel _ wsA hAnd hAmem w hw)
              simpa using h0
            have h2 : wB = w := by
              have h0 := hwsB.symm.trans (hsel _ wsB hBnd hBmem w hwB)
              simpa using h0
            rw [h1, h2]
          · exfalso
            rw [hsel _ wsB hBnd hBmem w hwB] at hlenB
            simp at hlenB
        · exfalso
          rw [hsel _ wsA hAnd hAmem w hw] at hlenA
          simp at hlenA
      · have hstrictB : ¬∃ w, strictlyMaximalVote
            ((votesAt stB topic task_id).map pyStr) w := by
          rintro ⟨w, hw⟩
          exact hstrict ⟨w, (strictlyMaximalVote_perm _ _ hss w).mpr hw⟩
        rcases hAdisj with ⟨wA, hwsA, _, _⟩ | ⟨_, _, hconsA⟩
        · exact absurd ⟨wA, hsingle _ wsA hAmem wA hwsA⟩ hstrict
        · rcases hBdisj with ⟨wB, hwsB, _, _⟩ | ⟨_, _, hconsB⟩
          · exact absurd ⟨wB, hsingle _ wsB hBmem wB hwsB⟩ hstrictB
          · intro s
            rw [hconsA, hconsB]
            simp only [consensusElems]
            rw [hAmem s, hBmem s]
            exact maximalVote_perm _ _ hss s

end OrderIndependence

/-- C6: processing any permutation of a sequence of distinct-sender VOTE
messages for one key and then calling `coordinate_consensus` yields the
same status, the same counts map (pointwise), and the same set of
consensus value(s): the tally is order-independent. -/
theorem consensus_order_independent (st : OState) (topic task_id : String)
    (msgs msgs' : List AgentMessage) (hperm : msgs.Perm msgs')
    (hkey : ∀ m ∈ msgs, voteKeyOf m = (.str topic, some task_id))
    (hnd : (msgs.map AgentMessage.sender_id).Nodup) :
    ((coordinate_consensus (msgs.foldl process_vote_message st)
        topic task_id).status =
      (coordinate_consensus (msgs'.foldl process_vote_message st)
        topic task_id).status) ∧
    (∀ s, countsOf (coordinate_consensus (msgs.foldl process_vote_message st)
        topic task_id) s =
      countsOf (coordinate_consensus (msgs'.foldl process_vote_message st)
        topic task_id) s) ∧
    (∀ s, s ∈ consensusElems (coordinate_consensus
        (msgs.foldl process_vote_message st) topic task_id).consensus ↔
      s ∈ consensusElems (coordinate_consensus
        (msgs'.foldl process_vote_message st) topic task_id).consensus) := by
  have hkey' : ∀ m ∈ msgs', voteKeyOf m = (.str topic, some task_id) :=
    fun m hm => hkey m (hperm.mem_iff.mpr hm)
  have hnd' : (msgs'.map AgentMessage.sender_id).Nodup :=
    ((hperm.map AgentMessage.sender_id).nodup_iff).mp hnd
  have hA := foldl_process_vote (.str topic, some task_id) msgs st hkey hnd
  have hB := foldl_process_vote (.str topic, some task_id) msgs' st hkey' hnd'
  have hp : (votesAt (msgs.foldl process_vote_message st) topic task_id).Perm
      (votesAt (msgs'.foldl process_vote_message st) topic task_id) := by
    have hvA : votesAt (msgs.foldl process_vote_message st) topic task_id =
        (tallyAt st (.str topic, some task_id)).votes ++
          (msgs.filter (fun m => decide (m.sender_id ∉
            (tallyAt st (.str topic, some task_id)).voted_agents))).map voteOf := by
      rw [votesAt, hA]
    have hvB : votesAt (msgs'.foldl process_vote_message st) topic task_id =
        (tallyAt st (.str topic, some task_id)).votes ++
          (msgs'.filter (fun m => decide (m.sender_id ∉
            (tallyAt st (.str topic, some task_id)).voted_agents))).map voteOf := by
      rw [votesAt, hB]
    rw [hvA, hvB]
    exact List.Perm.append_left _ ((hperm.filter _).map voteOf)
  exact consensus_perm_invariant _ _ topic task_id hp

/-- Witness for C6: the two concrete votes (Approve by `a1`, Reject by
`a2`) processed in either order give the same consensus status. -/
theorem consensus_order_independent_witness :
    (coordinate_consensus ([exV1, exV2].foldl process_vote_message exBase)
      "approve_code_fix" "t1").status =
    (coordinate_consensus ([exV2, exV1].foldl process_vote_message exBase)
      "approve_code_fix" "t1").status :=
  (consensus_order_independent exBase "approve_code_fix" "t1"
    [exV1, exV2] [exV2, exV1] (List.Perm.swap exV2 exV1 [])
    (by decide) (by decide)).1

/-- C7: the envelope dataclass as declared cannot be created by CPython —
the defaulted `receiver_id` precedes the non-defaulted `message_type` and
`payload`, so `@dataclass` raises `TypeError` at class creation, the
module fails to import, and `from_json(to_json(m))` can never run on the
program as written, against the spec's lossless wire contract. -/
theorem agentMessage_dataclass_invalid :
    dataclassValid agentMessageFields = false := by
  decide

/-- Serializing then deserializing an `AgentMessage` of the repaired
record restores every field, for every message type: the intended wire
contract holds once the field order is fixed. -/
theorem agentMessage_roundtrip (m : AgentMessage) :
    AgentMessage.from_json m.to_json = some m := by
  cases m with
  | mk s r mt p t =>
    cases r <;> cases t <;>
      simp [AgentMessage.to_json, AgentMessage.from_json, dget, optStrToJson,
        jsonToOptStr]

end Orchestration
